import Mathlib

/-!
Verification of the LCD/GPIO toggle-activity calculator
(`lcd_toggle_calc.py`).

The computation core is embedded shallowly:
* Python `float` values become `ℚ` (all arithmetic in the core is plain
  field arithmetic; the claims are exact algebraic statements).
* Python `int` values become `ℤ`.
* Validation error strings become constructors of an inductive error
  type, one constructor per `errors.append` site in the source, carrying
  the interpolated values; a region error is wrapped with its 1-based
  index exactly as the source prefixes `Region {i+1}:`.
* `float("inf")` in `years_to_one_quadrillion` becomes the `inf`
  constructor of a dedicated result type.
Since the source methods never assign to any field of `self.p` or of a
region, the embedded operations are pure functions of the parameter
record; variants that thread the parameter record through explicitly are
provided so absence of mutation is a stated theorem.
-/

namespace LCDToggle

/-- SECONDS_PER_YEAR = 60 * 60 * 24 * 365 from the source. -/
def SECONDS_PER_YEAR : ℚ := 60 * 60 * 24 * 365

/-- One region of the display: `alpha` fraction of frame area, `c`
fraction of pixels changing per frame, `h` average bit flips per changed
pixel.  Mirrors dataclass `Region`. -/
structure Region where
  alpha : ℚ
  c : ℚ
  h : ℚ
deriving DecidableEq, Repr

/-- Validation errors produced by `Region.validate`, one constructor per
`errors.append` site, carrying the values the source interpolates into
the message. -/
inductive RError where
  | alphaRange (alpha : ℚ) : RError
  | cRange (c : ℚ) : RError
  | hRange (h : ℚ) (W : ℤ) : RError
deriving DecidableEq, Repr

/-- `Region.validate(self, bus_width)` from the source: three
independent range checks, each appending one error. -/
def Region.validate (r : Region) (bus_width : ℤ) : List RError :=
  (if ¬(0 ≤ r.alpha ∧ r.alpha ≤ 1) then [RError.alphaRange r.alpha] else []) ++
  (if ¬(0 ≤ r.c ∧ r.c ≤ 1) then [RError.cRange r.c] else []) ++
  (if ¬(0 ≤ r.h ∧ r.h ≤ (bus_width : ℚ)) then [RError.hRange r.h bus_width] else [])

/-- Display and content parameters, mirroring dataclass `Params`.  The
`__post_init__` defaulting of `regions` and `num_pins` happens at the
construction boundary in the source; the record here always holds the
post-initialisation values. -/
structure Params where
  W : ℤ
  f_p_MHz : ℚ
  H : ℤ
  V : ℤ
  f_r : ℚ
  regions : List Region
  rho_override : ℚ
  num_pins : ℤ
deriving DecidableEq, Repr

/-- Validation errors produced by `Params.validate`, one constructor per
`errors.append` site; `region i e` is the source line
`errors.append(f"Region {i+1}: {err}")` with `i+1` stored. -/
inductive VError where
  | busWidthNonpos (W : ℤ) : VError
  | pixelClockNonpos (f : ℚ) : VError
  | hResNonpos (H : ℤ) : VError
  | vResNonpos (V : ℤ) : VError
  | refreshNonpos (f : ℚ) : VError
  | rhoNegative (rho : ℚ) : VError
  | numPinsNonpos (n : ℤ) : VError
  | noRegions : VError
  | alphaSumWrong (s : ℚ) : VError
  | region (i : ℕ) (e : RError) : VError
  | clockBelowActive (clk : ℚ) (rate : ℚ) : VError
deriving DecidableEq, Repr

/-- The `for i, r in enumerate(self.regions)` loop of `Params.validate`:
each region error is wrapped with its 1-based index. -/
def regionErrors (W : ℤ) : ℕ → List Region → List VError
  | _, [] => []
  | i, r :: rs =>
      ((r.validate W).map (VError.region (i + 1))) ++ regionErrors W (i + 1) rs

/-- Sum of the `alpha` fields, `sum(r.alpha for r in self.regions)`. -/
def alphaSum (rs : List Region) : ℚ := (rs.map Region.alpha).sum

/-- `Params.validate(self)` from the source: collects scalar positivity
checks, the region checks (emptiness, alpha sum, per-region ranges) and
the clock-sustains-active-rate check, in source order. -/
def Params.validate (p : Params) : List VError :=
  (if p.W ≤ 0 then [VError.busWidthNonpos p.W] else []) ++
  (if p.f_p_MHz ≤ 0 then [VError.pixelClockNonpos p.f_p_MHz] else []) ++
  (if p.H ≤ 0 then [VError.hResNonpos p.H] else []) ++
  (if p.V ≤ 0 then [VError.vResNonpos p.V] else []) ++
  (if p.f_r ≤ 0 then [VError.refreshNonpos p.f_r] else []) ++
  (if p.rho_override < 0 then [VError.rhoNegative p.rho_override] else []) ++
  (if p.num_pins ≤ 0 then [VError.numPinsNonpos p.num_pins] else []) ++
  (if p.regions = [] then [VError.noRegions]
   else
     (if |alphaSum p.regions - 1| > 1/1000
      then [VError.alphaSumWrong (alphaSum p.regions)] else []) ++
     regionErrors p.W 0 p.regions) ++
  (if p.f_p_MHz * 1000000 < (p.H : ℚ) * (p.V : ℚ) * p.f_r
   then [VError.clockBelowActive (p.f_p_MHz * 1000000) ((p.H : ℚ) * (p.V : ℚ) * p.f_r)]
   else [])

/-- The dictionary returned by `ActivityTool.compute`, as an immutable
record. -/
structure ComputeResult where
  H_avg : ℚ
  active_rate : ℚ
  pixel_clock_hz : ℚ
  rho : ℚ
  AF : ℚ
  toggles_sec : ℚ
  per_pin : ℚ
  total_pins_toggles : ℚ
  num_pins : ℤ
deriving DecidableEq, Repr

/-- `ActivityTool.compute(self)` from the source, line by line. -/
def compute (p : Params) : ComputeResult :=
  let H_avg := (p.regions.map (fun r => r.alpha * r.c * r.h)).sum
  let active_rate := (p.H : ℚ) * (p.V : ℚ) * p.f_r
  let pixel_clock_hz := p.f_p_MHz * 1000000
  let rho := if p.rho_override > 0 then p.rho_override else pixel_clock_hz / active_rate
  let AF := H_avg / (p.W : ℚ)
  let toggles_sec := active_rate * H_avg
  let per_pin := toggles_sec / (p.W : ℚ)
  let total_pins_toggles := per_pin * (p.num_pins : ℚ)
  { H_avg := H_avg
    active_rate := active_rate
    pixel_clock_hz := pixel_clock_hz
    rho := rho
    AF := AF
    toggles_sec := toggles_sec
    per_pin := per_pin
    total_pins_toggles := total_pins_toggles
    num_pins := p.num_pins }

/-- Result of `years_to_one_quadrillion`: either the `float("inf")`
sentinel or a finite number of years. -/
inductive YearsResult where
  | inf : YearsResult
  | fin (y : ℚ) : YearsResult
deriving DecidableEq, Repr

/-- `ActivityTool.years_to_one_quadrillion` from the source. -/
def years_to_one_quadrillion (toggles_per_sec : ℚ) : YearsResult :=
  if toggles_per_sec ≤ 0 then YearsResult.inf
  else YearsResult.fin ((10 ^ 15 / toggles_per_sec) / SECONDS_PER_YEAR)

/-- Default `years_list` argument of `lifetime_quadrillions`. -/
def defaultYears : List ℕ := [1, 5, 10, 25, 50, 75, 100]

/-- `ActivityTool.lifetime_quadrillions` from the source: the dict
comprehension becomes an association list in `years_list` order. -/
def lifetime_quadrillions (toggles_per_sec : ℚ) (years_list : List ℕ) :
    List (ℕ × ℚ) :=
  years_list.map (fun y => (y, toggles_per_sec * SECONDS_PER_YEAR * (y : ℚ) / 10 ^ 15))

/-- State-threading form of `Params.validate`: the source method reads
fields of `self` and appends to a local list, and contains no assignment
to any field, so the parameter record passes through unchanged. -/
def validateSt (p : Params) : List VError × Params :=
  (p.validate, p)

/-- State-threading form of `ActivityTool.compute`: the source method
reads `self.p` and local variables only and contains no assignment to
any field of `self.p` or of a region. -/
def computeSt (p : Params) : ComputeResult × Params :=
  (compute p, p)

/-- Validity of a configuration as the specification words it: all
scalars strictly positive, `rho_override` non-negative, a non-empty
region list, per-region ranges, alpha sum within 0.001 of 1, and the
pixel clock (in Hz) at least the active pixel rate. -/
def SpecValid (p : Params) : Prop :=
  0 < p.W ∧ 0 < p.f_p_MHz ∧ 0 < p.H ∧ 0 < p.V ∧ 0 < p.f_r ∧
  0 ≤ p.rho_override ∧ 0 < p.num_pins ∧ p.regions ≠ [] ∧
  (∀ r ∈ p.regions,
    (0 ≤ r.alpha ∧ r.alpha ≤ 1) ∧ (0 ≤ r.c ∧ r.c ≤ 1) ∧
    (0 ≤ r.h ∧ r.h ≤ (p.W : ℚ))) ∧
  |alphaSum p.regions - 1| ≤ 1/1000 ∧
  (p.H : ℚ) * (p.V : ℚ) * p.f_r ≤ p.f_p_MHz * 1000000

instance (p : Params) : Decidable (SpecValid p) := by
  unfold SpecValid; infer_instance

/-- A one-element conditional list is empty exactly when the condition
fails. -/
lemma ite_singleton_eq_nil {α : Type} (c : Prop) [Decidable c] (a : α) :
    (if c then [a] else []) = [] ↔ ¬c := by
  split <;> simp [*]

/-- A conditional list whose then-branch is a non-empty literal is empty
exactly when the condition fails and the else-branch is empty. -/
lemma ite_cons_eq_nil {α : Type} (c : Prop) [Decidable c] (a : α) (l : List α) :
    (if c then [a] else l) = [] ↔ ¬c ∧ l = [] := by
  split <;> simp [*]

/-- A region passes `Region.validate` exactly when all three ranges
hold. -/
lemma Region.validate_eq_nil {r : Region} {W : ℤ} :
    r.validate W = [] ↔
      (0 ≤ r.alpha ∧ r.alpha ≤ 1) ∧ (0 ≤ r.c ∧ r.c ≤ 1) ∧
      (0 ≤ r.h ∧ r.h ≤ (W : ℚ)) := by
  simp only [Region.validate, List.append_eq_nil, ite_singleton_eq_nil, not_not]
  tauto

/-- The enumerate loop produces no errors exactly when every region
passes its own validation. -/
lemma regionErrors_eq_nil {W : ℤ} {rs : List Region} : ∀ {i : ℕ},
    regionErrors W i rs = [] ↔ ∀ r ∈ rs, r.validate W = [] := by
  induction rs with
  | nil => simp [regionErrors]
  | cons a as ih =>
      intro i
      simp [regionErrors, List.append_eq_nil, ih]

/-- `Params.validate` returns the empty list exactly on spec-valid
configurations. -/
lemma validate_eq_nil_iff {p : Params} : p.validate = [] ↔ SpecValid p := by
  simp only [Params.validate, SpecValid, List.append_eq_nil, ite_singleton_eq_nil,
    ite_cons_eq_nil, not_le, not_lt, regionErrors_eq_nil, Region.validate_eq_nil,
    and_true]
  tauto

/-- An error of the region at index `i` (0-based) appears in the output
of the enumerate loop, tagged with its 1-based index. -/
lemma mem_regionErrors {W : ℤ} {r : Region} {e : RError} :
    ∀ {rs : List Region} {i j : ℕ}, rs[i]? = some r → e ∈ r.validate W →
      VError.region (j + i + 1) e ∈ regionErrors W j rs := by
  intro rs
  induction rs with
  | nil => intro i j h _; simp at h
  | cons a as ih =>
      intro i j hget he
      cases i with
      | zero =>
          simp only [List.getElem?_cons_zero, Option.some.injEq] at hget
          subst hget
          simp only [regionErrors, List.mem_append, List.mem_map]
          exact Or.inl ⟨e, he, rfl⟩
      | succ n =>
          simp only [List.getElem?_cons_succ] at hget
          have := ih (i := n) (j := j + 1) hget he
          simp only [regionErrors, List.mem_append]
          right
          have harith : j + 1 + n + 1 = j + (n + 1) + 1 := by omega
          rwa [harith] at this

/-- The 1080p60 desktop-worst example configuration from the spec:
24-bit bus, 1920x1080 at 60 Hz, pixel clock 148.5 MHz, one region
covering the whole frame with every pixel changing and 12 flips per
change. -/
def p1080 : Params :=
  { W := 24, f_p_MHz := 297/2, H := 1920, V := 1080, f_r := 60,
    regions := [{ alpha := 1, c := 1, h := 12 }], rho_override := 0,
    num_pins := 24 }

/-- Claim C1: `compute` follows the algorithm of the specification:
`H_avg` is the weighted sum over regions, `active_rate` is
`h_res * v_res * refresh_hz`, `AF = H_avg / bus_width`,
`toggles_per_second = active_rate * H_avg`,
`per_pin = toggles_per_second / bus_width`, and
`total_pins = per_pin * pin_count`. -/
theorem compute_follows_spec_formulas (p : Params) :
    (compute p).H_avg = (p.regions.map (fun r => r.alpha * r.c * r.h)).sum ∧
    (compute p).active_rate = (p.H : ℚ) * (p.V : ℚ) * p.f_r ∧
    (compute p).AF = (compute p).H_avg / (p.W : ℚ) ∧
    (compute p).toggles_sec = (compute p).active_rate * (compute p).H_avg ∧
    (compute p).per_pin = (compute p).toggles_sec / (p.W : ℚ) ∧
    (compute p).total_pins_toggles = (compute p).per_pin * (p.num_pins : ℚ) :=
  ⟨rfl, rfl, rfl, rfl, rfl, rfl⟩

/-- Claim C2: the blanking factor `rho` is `rho_override` when that is
positive and `pixel_clock_hz / active_rate` otherwise, and it is
informational only: changing `rho_override` (with all other parameters
fixed) leaves every toggle-rate output unchanged. -/
theorem rho_informational (p : Params) :
    (0 < p.rho_override → (compute p).rho = p.rho_override) ∧
    (¬0 < p.rho_override →
      (compute p).rho = p.f_p_MHz * 1000000 / ((p.H : ℚ) * (p.V : ℚ) * p.f_r)) ∧
    (∀ v : ℚ,
      (compute { p with rho_override := v }).toggles_sec = (compute p).toggles_sec ∧
      (compute { p with rho_override := v }).per_pin = (compute p).per_pin ∧
      (compute { p with rho_override := v }).total_pins_toggles =
        (compute p).total_pins_toggles) := by
  refine ⟨fun h => ?_, fun h => ?_, fun v => ⟨rfl, rfl, rfl⟩⟩
  · simp only [compute, if_pos h]
  · simp only [compute, if_neg h]

/-- Witness for C2 at the 1080p60 example: with `rho_override = 0` the
automatic branch is taken, with `rho_override = 3/2` the override is
returned, and overriding does not change the toggle rate. -/
theorem rho_informational_witness :
    (compute { p1080 with rho_override := 3/2 }).rho = 3/2 ∧
    (compute p1080).rho =
      p1080.f_p_MHz * 1000000 / ((p1080.H : ℚ) * (p1080.V : ℚ) * p1080.f_r) ∧
    (compute { p1080 with rho_override := 5 }).toggles_sec =
      (compute p1080).toggles_sec :=
  ⟨(rho_informational { p1080 with rho_override := 3/2 }).1 (by norm_num),
   (rho_informational p1080).2.1 (by norm_num [p1080]),
   ((rho_informational p1080).2.2 5).1⟩

/-- A configuration violating several scalar constraints at once. -/
def pBadScalars : Params :=
  { W := -1, f_p_MHz := -1, H := -2, V := -3, f_r := -1,
    regions := [], rho_override := -1, num_pins := 0 }

/-- Claim C3: `validate` returns the empty list exactly on valid
configurations (positive scalars, non-negative override, non-empty
regions with in-range fields and alpha sum within 0.001 of 1, clock at
least the active rate), and any non-positive scalar other than
`rho_override` puts an error naming that field in the list. -/
theorem validate_empty_iff_valid (p : Params) :
    (p.validate = [] ↔ SpecValid p) ∧
    (p.W ≤ 0 → VError.busWidthNonpos p.W ∈ p.validate) ∧
    (p.f_p_MHz ≤ 0 → VError.pixelClockNonpos p.f_p_MHz ∈ p.validate) ∧
    (p.H ≤ 0 → VError.hResNonpos p.H ∈ p.validate) ∧
    (p.V ≤ 0 → VError.vResNonpos p.V ∈ p.validate) ∧
    (p.f_r ≤ 0 → VError.refreshNonpos p.f_r ∈ p.validate) ∧
    (p.num_pins ≤ 0 → VError.numPinsNonpos p.num_pins ∈ p.validate) := by
  refine ⟨validate_eq_nil_iff, ?_, ?_, ?_, ?_, ?_, ?_⟩ <;>
    intro h <;> simp [Params.validate, h]

/-- Witness for C3: the 1080p60 example validates cleanly, and a
configuration with `W = -1` gets an error naming the bus width. -/
theorem validate_empty_iff_valid_witness :
    p1080.validate = [] ∧ VError.busWidthNonpos (-1) ∈ pBadScalars.validate :=
  ⟨(validate_empty_iff_valid p1080).1.mpr
      (by norm_num [SpecValid, p1080, alphaSum]),
   (validate_empty_iff_valid pBadScalars).2.1 (by norm_num [pBadScalars])⟩

/-- An otherwise-valid configuration whose region list is empty. -/
def pNoRegions : Params :=
  { W := 24, f_p_MHz := 297/2, H := 1920, V := 1080, f_r := 60,
    regions := [], rho_override := 0, num_pins := 24 }

/-- Two full-frame regions: the alpha fractions sum to 2. -/
def pSum2 : Params :=
  { W := 24, f_p_MHz := 297/2, H := 1920, V := 1080, f_r := 60,
    regions := [{ alpha := 1, c := 1, h := 12 }, { alpha := 1, c := 1, h := 12 }],
    rho_override := 0, num_pins := 24 }

/-- A configuration whose single region has `h = 25` on a 24-bit bus. -/
def pBadRegionH : Params :=
  { W := 24, f_p_MHz := 297/2, H := 1920, V := 1080, f_r := 60,
    regions := [{ alpha := 1, c := 1, h := 25 }], rho_override := 0,
    num_pins := 24 }

/-- Counterexample to claim C4 as stated: with an empty region list the
alpha fractions sum to 0, so the area-fraction-sum constraint is
violated, yet `validate` emits only the emptiness error and no
`alphaSumWrong` description at all. -/
theorem validate_empty_regions_counterexample :
    |alphaSum pNoRegions.regions - 1| > 1/1000 ∧
    pNoRegions.validate = [VError.noRegions] ∧
    (∀ s : ℚ, VError.alphaSumWrong s ∉ pNoRegions.validate) := by
  have h : pNoRegions.validate = [VError.noRegions] := by
    norm_num [Params.validate, pNoRegions]
  refine ⟨by norm_num [alphaSum, pNoRegions], h, ?_⟩
  intro s
  rw [h]
  simp

/-- Claim C4 (amended): `validate` reports every violated check, except
that the area-sum and per-region checks run only when the region list is
non-empty — an empty region list is reported solely by the emptiness
error.  Each violated constraint contributes its own error. -/
theorem validate_reports_each_violation (p : Params) :
    (p.W ≤ 0 → VError.busWidthNonpos p.W ∈ p.validate) ∧
    (p.f_p_MHz ≤ 0 → VError.pixelClockNonpos p.f_p_MHz ∈ p.validate) ∧
    (p.H ≤ 0 → VError.hResNonpos p.H ∈ p.validate) ∧
    (p.V ≤ 0 → VError.vResNonpos p.V ∈ p.validate) ∧
    (p.f_r ≤ 0 → VError.refreshNonpos p.f_r ∈ p.validate) ∧
    (p.rho_override < 0 → VError.rhoNegative p.rho_override ∈ p.validate) ∧
    (p.num_pins ≤ 0 → VError.numPinsNonpos p.num_pins ∈ p.validate) ∧
    (p.regions = [] → VError.noRegions ∈ p.validate) ∧
    (p.regions ≠ [] → |alphaSum p.regions - 1| > 1/1000 →
      VError.alphaSumWrong (alphaSum p.regions) ∈ p.validate) ∧
    (∀ (i : ℕ) (r : Region) (e : RError), p.regions[i]? = some r →
      e ∈ r.validate p.W → VError.region (i + 1) e ∈ p.validate) ∧
    (p.f_p_MHz * 1000000 < (p.H : ℚ) * (p.V : ℚ) * p.f_r →
      VError.clockBelowActive (p.f_p_MHz * 1000000)
        ((p.H : ℚ) * (p.V : ℚ) * p.f_r) ∈ p.validate) := by
  refine ⟨fun h => ?_, fun h => ?_, fun h => ?_, fun h => ?_, fun h => ?_,
    fun h => ?_, fun h => ?_, fun h => ?_, fun hne h => ?_,
    fun i r e hget he => ?_, fun h => ?_⟩
  · simp [Params.validate, h]
  · simp [Params.validate, h]
  · simp [Params.validate, h]
  · simp [Params.validate, h]
  · simp [Params.validate, h]
  · simp [Params.validate, h]
  · simp [Params.validate, h]
  · simp [Params.validate, h]
  · have hmem : VError.alphaSumWrong (alphaSum p.regions) ∈
        (if p.regions = [] then [VError.noRegions]
         else
           (if |alphaSum p.regions - 1| > 1/1000
            then [VError.alphaSumWrong (alphaSum p.regions)] else []) ++
           regionErrors p.W 0 p.regions) := by
      rw [if_neg hne, if_pos h]
      simp
    simp only [Params.validate, List.mem_append]
    tauto
  · have hne : p.regions ≠ [] := by
      intro hnil
      rw [hnil] at hget
      simp at hget
    have hmem0 := mem_regionErrors (W := p.W) (j := 0) hget he
    rw [Nat.zero_add] at hmem0
    have hmem : VError.region (i + 1) e ∈
        (if p.regions = [] then [VError.noRegions]
         else
           (if |alphaSum p.regions - 1| > 1/1000
            then [VError.alphaSumWrong (alphaSum p.regions)] else []) ++
           regionErrors p.W 0 p.regions) := by
      rw [if_neg hne]
      exact List.mem_append_right _ hmem0
    simp only [Params.validate, List.mem_append]
    tauto
  · simp [Params.validate, h]

/-- Witness for the amended C4: each kind of violation, exhibited on a
concrete configuration, contributes its own error to the list. -/
theorem validate_reports_each_violation_witness :
    VError.busWidthNonpos pBadScalars.W ∈ pBadScalars.validate ∧
    VError.pixelClockNonpos pBadScalars.f_p_MHz ∈ pBadScalars.validate ∧
    VError.hResNonpos pBadScalars.H ∈ pBadScalars.validate ∧
    VError.vResNonpos pBadScalars.V ∈ pBadScalars.validate ∧
    VError.refreshNonpos pBadScalars.f_r ∈ pBadScalars.validate ∧
    VError.rhoNegative pBadScalars.rho_override ∈ pBadScalars.validate ∧
    VError.numPinsNonpos pBadScalars.num_pins ∈ pBadScalars.validate ∧
    VError.noRegions ∈ pBadScalars.validate ∧
    VError.clockBelowActive (pBadScalars.f_p_MHz * 1000000)
      ((pBadScalars.H : ℚ) * (pBadScalars.V : ℚ) * pBadScalars.f_r) ∈
      pBadScalars.validate ∧
    VError.alphaSumWrong (alphaSum pSum2.regions) ∈ pSum2.validate ∧
    VError.region 1 (RError.hRange 25 24) ∈ pBadRegionH.validate := by
  have hb := validate_reports_each_violation pBadScalars
  have hs := validate_reports_each_violation pSum2
  have hr := validate_reports_each_violation pBadRegionH
  refine ⟨hb.1 (by norm_num [pBadScalars]),
    hb.2.1 (by norm_num [pBadScalars]),
    hb.2.2.1 (by norm_num [pBadScalars]),
    hb.2.2.2.1 (by norm_num [pBadScalars]),
    hb.2.2.2.2.1 (by norm_num [pBadScalars]),
    hb.2.2.2.2.2.1 (by norm_num [pBadScalars]),
    hb.2.2.2.2.2.2.1 (by norm_num [pBadScalars]),
    hb.2.2.2.2.2.2.2.1 (by norm_num [pBadScalars]),
    hb.2.2.2.2.2.2.2.2.2.2 (by norm_num [pBadScalars]),
    hs.2.2.2.2.2.2.2.2.1 (by simp [pSum2]) (by norm_num [alphaSum, pSum2]),
    hr.2.2.2.2.2.2.2.2.2.1 0 { alpha := 1, c := 1, h := 25 }
      (RError.hRange 25 24) (by norm_num [pBadRegionH])
      (by norm_num [Region.validate, pBadRegionH])⟩

/-- Claim C5: `years_to_one_quadrillion` returns the infinity sentinel
exactly when the toggle rate is zero or negative, and otherwise the
exact value `1e15 / t / SECONDS_PER_YEAR`. -/
theorem years_to_one_quadrillion_spec (t : ℚ) :
    (t ≤ 0 → years_to_one_quadrillion t = YearsResult.inf) ∧
    (0 < t → years_to_one_quadrillion t =
      YearsResult.fin (10 ^ 15 / t / SECONDS_PER_YEAR)) := by
  constructor
  · intro h
    rw [years_to_one_quadrillion, if_pos h]
  · intro h
    rw [years_to_one_quadrillion, if_neg (not_le.mpr h)]

/-- Witness for C5: zero rate yields the infinity sentinel; rate 4
yields the finite formula value. -/
theorem years_to_one_quadrillion_spec_witness :
    ((0 : ℚ) ≤ 0 ∧ years_to_one_quadrillion 0 = YearsResult.inf) ∧
    ((0 : ℚ) < 4 ∧ years_to_one_quadrillion 4 =
      YearsResult.fin (10 ^ 15 / 4 / SECONDS_PER_YEAR)) :=
  ⟨⟨le_refl 0, (years_to_one_quadrillion_spec 0).1 (le_refl 0)⟩,
   ⟨by norm_num, (years_to_one_quadrillion_spec 4).2 (by norm_num)⟩⟩

/-- Claim C6: every requested year count `y` is mapped to
`t * SECONDS_PER_YEAR * y / 1e15` (with no guard on the sign of `t`),
and the table is linear: the value at 10 years is 10 times the value at
1 year. -/
theorem lifetime_quadrillions_spec (t : ℚ) :
    (∀ (ys : List ℕ) (y : ℕ), y ∈ ys →
      (y, t * SECONDS_PER_YEAR * (y : ℚ) / 10 ^ 15) ∈
        lifetime_quadrillions t ys) ∧
    (∀ (ys : List ℕ) (y : ℕ) (q : ℚ), (y, q) ∈ lifetime_quadrillions t ys →
      q = t * SECONDS_PER_YEAR * (y : ℚ) / 10 ^ 15) ∧
    (∀ q1 q10 : ℚ, (1, q1) ∈ lifetime_quadrillions t defaultYears →
      (10, q10) ∈ lifetime_quadrillions t defaultYears → q10 = 10 * q1) := by
  refine ⟨fun ys y hy => ?_, fun ys y q hq => ?_, fun q1 q10 h1 h10 => ?_⟩
  · simp only [lifetime_quadrillions, List.mem_map]
    exact ⟨y, hy, rfl⟩
  · simp only [lifetime_quadrillions, List.mem_map, Prod.mk.injEq] at hq
    obtain ⟨a, -, rfl, rfl⟩ := hq
    rfl
  · simp only [lifetime_quadrillions, defaultYears, List.map_cons, List.map_nil,
      List.mem_cons, List.not_mem_nil, or_false, Prod.mk.injEq] at h1 h10
    norm_num at h1 h10
    rw [h1, h10]
    ring

/-- Witness for C6 at rate 2: the 10-year entry is present and equals 10
times the 1-year value. -/
theorem lifetime_quadrillions_spec_witness :
    ((10 : ℕ) ∈ defaultYears ∧
      ((10 : ℕ), (2 : ℚ) * SECONDS_PER_YEAR * ((10 : ℕ) : ℚ) / 10 ^ 15) ∈
        lifetime_quadrillions 2 defaultYears) ∧
    (2 : ℚ) * SECONDS_PER_YEAR * ((10 : ℕ) : ℚ) / 10 ^ 15 =
      10 * ((2 : ℚ) * SECONDS_PER_YEAR * ((1 : ℕ) : ℚ) / 10 ^ 15) := by
  have h := lifetime_quadrillions_spec 2
  refine ⟨⟨by decide, h.1 defaultYears 10 (by decide)⟩, ?_⟩
  exact h.2.2 _ _ (h.1 defaultYears 1 (by decide)) (h.1 defaultYears 10 (by decide))

/-- Claim C7: the golden 1080p60 example: `H_avg = 12`,
`active_rate = 124,416,000`, pixel clock `148,500,000` Hz, `AF = 0.5`,
`toggles_per_second = 1,492,992,000`, `per_pin = 62,208,000`. -/
theorem compute_1080p60_golden :
    (compute p1080).H_avg = 12 ∧
    (compute p1080).active_rate = 124416000 ∧
    (compute p1080).pixel_clock_hz = 148500000 ∧
    (compute p1080).AF = 1/2 ∧
    (compute p1080).toggles_sec = 1492992000 ∧
    (compute p1080).per_pin = 62208000 := by
  norm_num [compute, p1080]

/-- A configuration with a single full-frame, fully-changing region with
`h` bit flips per changed pixel; the scalar parameters are arbitrary. -/
def singleRegionParams (W Hr Vr np : ℤ) (fp fr h : ℚ) : Params :=
  { W := W, f_p_MHz := fp, H := Hr, V := Vr, f_r := fr,
    regions := [{ alpha := 1, c := 1, h := h }], rho_override := 0,
    num_pins := np }

/-- Claim C8: the `avg_flips` upper bound is inclusive: on an otherwise
valid configuration a full-frame region with `h` exactly the bus width
validates cleanly, while `h` one above the bus width fails. -/
theorem avg_flips_bound_inclusive (W Hr Vr np : ℤ) (fp fr : ℚ)
    (hW : 0 < W) (hfp : 0 < fp) (hH : 0 < Hr) (hV : 0 < Vr) (hfr : 0 < fr)
    (hnp : 0 < np) (hclk : (Hr : ℚ) * (Vr : ℚ) * fr ≤ fp * 1000000) :
    (singleRegionParams W Hr Vr np fp fr (W : ℚ)).validate = [] ∧
    (singleRegionParams W Hr Vr np fp fr ((W : ℚ) + 1)).validate ≠ [] := by
  constructor
  · rw [validate_eq_nil_iff]
    dsimp only [SpecValid, singleRegionParams]
    refine ⟨hW, hfp, hH, hV, hfr, le_refl 0, hnp, by simp, ?_,
      by norm_num [alphaSum], hclk⟩
    intro r hr
    simp only [List.mem_singleton] at hr
    subst hr
    have hWQ : (0 : ℚ) ≤ (W : ℚ) := by exact_mod_cast hW.le
    exact ⟨⟨zero_le_one, le_refl 1⟩, ⟨zero_le_one, le_refl 1⟩, hWQ, le_refl _⟩
  · intro hnil
    rw [validate_eq_nil_iff] at hnil
    dsimp only [SpecValid, singleRegionParams] at hnil
    have hregs := hnil.2.2.2.2.2.2.2.2.1
    have hbound : (W : ℚ) + 1 ≤ (W : ℚ) :=
      (hregs { alpha := 1, c := 1, h := (W : ℚ) + 1 } (by simp)).2.2.2
    linarith

/-- Witness for C8 on the 1080p60 scalars with a 24-bit bus. -/
theorem avg_flips_bound_inclusive_witness :
    (0 : ℤ) < 24 ∧
    (((1920 : ℤ) : ℚ) * ((1080 : ℤ) : ℚ) * 60 ≤ (297/2) * 1000000) ∧
    (singleRegionParams 24 1920 1080 24 (297/2) 60 ((24 : ℤ) : ℚ)).validate
      = [] ∧
    (singleRegionParams 24 1920 1080 24 (297/2) 60
      (((24 : ℤ) : ℚ) + 1)).validate ≠ [] := by
  have h := avg_flips_bound_inclusive 24 1920 1080 24 (297/2) 60
    (by norm_num) (by norm_num) (by norm_num) (by norm_num) (by norm_num)
    (by norm_num) (by norm_num)
  exact ⟨by norm_num, by norm_num, h.1, h.2⟩

/-- Claim C9: neither `validate` nor `compute` mutates the
configuration (the state-threading forms return it unchanged), and with
alpha fractions summing to 2 the violation is flagged while `compute`
uses the raw, un-renormalized fractions: `H_avg` is 24, not the 12 a
silent renormalization would give. -/
theorem no_mutation_no_renormalization (p : Params) :
    (validateSt p).2 = p ∧
    (computeSt p).2 = p ∧
    alphaSum pSum2.regions = 2 ∧
    VError.alphaSumWrong 2 ∈ pSum2.validate ∧
    (compute pSum2).H_avg = 24 := by
  have hval : pSum2.validate = [VError.alphaSumWrong 2] := by
    norm_num [Params.validate, pSum2, regionErrors, Region.validate, alphaSum]
    intro hcontra
    exact absurd hcontra (List.cons_ne_nil _ _)
  refine ⟨rfl, rfl, by norm_num [alphaSum, pSum2], ?_,
    by norm_num [compute, pSum2]⟩
  rw [hval]
  simp

/-- Claim C10: on a configuration that validates cleanly, both divisors
used by `compute` — the bus width (in `AF` and `per_pin`) and the active
rate (in the automatic `rho` branch) — are strictly positive, so every
division in `compute` is well-defined. -/
theorem compute_divisors_positive (p : Params) (h : p.validate = []) :
    0 < p.W ∧ ((p.W : ℚ) ≠ 0) ∧
    0 < (compute p).active_rate ∧ (compute p).active_rate ≠ 0 := by
  obtain ⟨hW, hfp, hH, hV, hfr, -, -, -, -, -, -⟩ := validate_eq_nil_iff.mp h
  have hWQ : (0 : ℚ) < (p.W : ℚ) := by exact_mod_cast hW
  have hHQ : (0 : ℚ) < (p.H : ℚ) := by exact_mod_cast hH
  have hVQ : (0 : ℚ) < (p.V : ℚ) := by exact_mod_cast hV
  have hrate : (0 : ℚ) < (p.H : ℚ) * (p.V : ℚ) * p.f_r :=
    mul_pos (mul_pos hHQ hVQ) hfr
  have heq : (compute p).active_rate = (p.H : ℚ) * (p.V : ℚ) * p.f_r := rfl
  exact ⟨hW, ne_of_gt hWQ, by rw [heq]; exact hrate,
    by rw [heq]; exact ne_of_gt hrate⟩

/-- Witness for C10 at the 1080p60 example, which validates cleanly. -/
theorem compute_divisors_positive_witness :
    p1080.validate = [] ∧ 0 < p1080.W ∧ 0 < (compute p1080).active_rate := by
  have hval : p1080.validate = [] := by
    norm_num [Params.validate, p1080, regionErrors, Region.validate, alphaSum]
  have h := compute_divisors_positive p1080 hval
  exact ⟨hval, h.1, h.2.2.1⟩

end LCDToggle
